import Mathlib

/-!
Shallow embedding of the hftshm shared-memory layout library
(src/hftshm/layout.hpp, src/hftshm/platform.hpp).

Machine integers are modelled as `Nat` with explicit reductions modulo
`2 ^ w` wherever the C code performs width-`w` unsigned arithmetic.
Function parameters of unsigned type are reduced at entry, mirroring the
C parameter types (`uint8_t`, `uint16_t`, `uint32_t`, `uint64_t`).
`CACHE_LINE` is 64, the value on the primary x86-64 Linux target
(the source static_asserts it is 64 or 128).
-/

namespace HftShm

/-- Width bounds of the unsigned machine integer types used by the source. -/
def U8 : Nat := 2 ^ 8

def U16 : Nat := 2 ^ 16

def U32 : Nat := 2 ^ 32

def U64 : Nat := 2 ^ 64

theorem U8_eq : U8 = 256 := rfl

theorem U16_eq : U16 = 65536 := rfl

theorem U32_eq : U32 = 4294967296 := rfl

theorem U64_eq : U64 = 18446744073709551616 := rfl

/-- Cache line size on the primary x86-64 target (layout.hpp). -/
def CACHE_LINE : Nat := 64

/-- Page size used for header segment alignment (layout.hpp). -/
def PAGE_SIZE : Nat := 4096

def PAGE_SIZE_LOG2 : Nat := 12

/-- Magic number "HFTSHM\x02\x00" in little-endian (layout.hpp). -/
def METADATA_MAGIC : Nat := 0x00024D4853544648

/-- Current layout version (layout.hpp). -/
def METADATA_VERSION : Nat := 2

/-- Fixed fields size of the metadata record, before padding (layout.hpp). -/
def METADATA_FIXED_SIZE : Nat := 39

def HUGEPAGE_2MB : Nat := 2 * 1024 * 1024

def HUGEPAGE_1GB : Nat := 1024 * 1024 * 1024

/-- The loop body of `size_to_log2` (layout.hpp):
`while ((1u << log2) < size) ++log2; return log2;`.
The fuel counts the remaining loop iterations that are defined behaviour:
the condition is only ever evaluated for `log2 < 32` (the C shift
`1u << log2` is undefined at 32), so starting fuel is 32 and running out
of fuel models reaching the undefined shift. -/
def size_to_log2_loop (size : Nat) : Nat → Nat → Option Nat
  | _, 0 => none
  | log2, fuel + 1 =>
    if 1 <<< log2 < size then size_to_log2_loop size (log2 + 1) fuel
    else some log2

/-- `size_to_log2` from layout.hpp. Parameter type is `uint32_t`.
Returns `none` when the C loop would reach the undefined shift by 32,
which happens exactly when `size > 2^31`. -/
def size_to_log2 (size : Nat) : Option Nat :=
  size_to_log2_loop (size % U32) 0 32

/-- `is_power_of_2` from layout.hpp: `x && !(x & (x - 1))`.
For `x = 0` the `&&` short-circuits, so the wrap-around of `x - 1`
is never observed; for `x >= 1` the natural subtraction agrees with
the `uint32_t` subtraction. -/
def is_power_of_2 (x : Nat) : Bool :=
  let x := x % U32
  x != 0 && (x &&& (x - 1)) == 0

/-- The metadata record of layout.hpp (struct metadata).
Every field stores the value of the corresponding C member; the
numeric members are unsigned integers written by `metadata_init`,
`padding` is the trailing byte array. -/
structure Metadata where
  magic : Nat
  version : Nat
  max_consumers : Nat
  event_size : Nat
  producer_pid : Nat
  buffer_size : Nat
  producer_offset : Nat
  consumer_0_offset : Nat
  header_size : Nat
  index_mask : Nat
  event_size_log2 : Nat
  buffer_size_log2 : Nat
  header_size_log2 : Nat
  padding : List Nat
deriving DecidableEq

/-- `metadata_init` from layout.hpp. Writes every fixed field, derives
`index_mask` and the three log2 fields, zeroes the padding and sets
`producer_pid` to 0. Parameters are reduced to their C types
(`uint8_t`, `uint16_t`, `uint32_t`). `index_mask = buffer_size - 1`
is the `uint32_t` subtraction, so it wraps at `buffer_size = 0`.
The result is `none` when one of the embedded `size_to_log2` loops
reaches its undefined shift (size above `2^31`). -/
def metadata_init (max_consumers event_size buffer_size producer_offset
    consumer_0_offset header_size : Nat) : Option Metadata :=
  let mc := max_consumers % U8
  let es := event_size % U16
  let bs := buffer_size % U32
  let po := producer_offset % U32
  let co := consumer_0_offset % U32
  let hs := header_size % U32
  (if es = 0 then some 0 else size_to_log2 es).bind fun esl =>
  (size_to_log2 bs).bind fun bsl =>
  (size_to_log2 hs).bind fun hsl =>
  some {
    magic := METADATA_MAGIC
    version := METADATA_VERSION
    max_consumers := mc
    event_size := es
    producer_pid := 0
    buffer_size := bs
    producer_offset := po
    consumer_0_offset := co
    header_size := hs
    index_mask := (bs + (U32 - 1)) % U32
    event_size_log2 := esl
    buffer_size_log2 := bsl
    header_size_log2 := hsl
    padding := List.replicate (CACHE_LINE - METADATA_FIXED_SIZE) 0 }

/-- `metadata_validate` from layout.hpp: magic and version check only. -/
def metadata_validate (m : Metadata) : Bool :=
  m.magic == METADATA_MAGIC && m.version == METADATA_VERSION

/-- `validate_sizes` from layout.hpp: power-of-two buffer and mask match.
The `&&` short-circuit means `buffer_size - 1` is only evaluated with
`buffer_size >= 1`, where natural subtraction agrees with `uint32_t`. -/
def validate_sizes (m : Metadata) : Bool :=
  is_power_of_2 (m.buffer_size % U32) &&
    (m.index_mask % U32 == m.buffer_size % U32 - 1)

/-- `event_offset` from layout.hpp: `index << meta->event_size_log2` on
`uint32_t`. The C shift is defined only for shift amounts below 32;
every record written by `metadata_init` stores `event_size_log2 <= 31`,
where this embedding coincides with the C semantics. -/
def event_offset (m : Metadata) (index : Nat) : Nat :=
  ((index % U32) <<< (m.event_size_log2 % U8)) % U32

/-- `buffer_index` from layout.hpp:
`static_cast<uint32_t>(sequence) & meta->index_mask`. -/
def buffer_index (m : Metadata) (sequence : Nat) : Nat :=
  ((sequence % U64) % U32) &&& (m.index_mask % U32)

def DEFAULT_PRODUCER_SECTION_SIZE : Nat := 2 * CACHE_LINE

def DEFAULT_CONSUMER_SECTION_SIZE : Nat := 2 * CACHE_LINE

/-- `default_producer_offset` from layout.hpp: right after the metadata. -/
def default_producer_offset : Nat := CACHE_LINE

/-- `default_consumer_0_offset` from layout.hpp. -/
def default_consumer_0_offset (producer_section_size : Nat) : Nat :=
  (CACHE_LINE + producer_section_size % U32) % U32

/-- `raw_header_size` from layout.hpp:
`CACHE_LINE + producer_section_size + max_consumers * consumer_section_size`.
The product is computed in `uint32_t` (it may wrap); the final sum is
truncated to the `uint32_t` return type. -/
def raw_header_size (max_consumers producer_section_size
    consumer_section_size : Nat) : Nat :=
  let mc := max_consumers % U8
  let pss := producer_section_size % U32
  let css := consumer_section_size % U32
  (CACHE_LINE + pss + (mc * css) % U32) % U32

/-- `header_segment_size` from layout.hpp:
`((raw + PAGE_SIZE - 1) / PAGE_SIZE) * PAGE_SIZE` on `uint32_t`,
with the additions wrapping modulo `2^32`. -/
def header_segment_size (max_consumers producer_section_size
    consumer_section_size : Nat) : Nat :=
  let raw := raw_header_size max_consumers producer_section_size
    consumer_section_size
  ((((raw + PAGE_SIZE) % U32 + (U32 - 1)) % U32) / PAGE_SIZE * PAGE_SIZE) % U32

/-- `producer_section_size` from layout.hpp:
`consumer_0_offset - producer_offset` on `uint32_t` (wrapping). -/
def producer_section_size (m : Metadata) : Nat :=
  ((m.consumer_0_offset % U32) + (U32 - m.producer_offset % U32)) % U32

/-- `consumer_section_size` from layout.hpp:
`(raw_header_size(max_consumers) - consumer_0_offset) / max_consumers`,
where `raw_header_size` is invoked with its default section sizes.
The subtraction wraps on `uint32_t`; division by `max_consumers = 0` is
undefined behaviour in C and evaluates to 0 here (no claim touches it). -/
def consumer_section_size (m : Metadata) : Nat :=
  let raw_end := raw_header_size m.max_consumers
    DEFAULT_PRODUCER_SECTION_SIZE DEFAULT_CONSUMER_SECTION_SIZE
  ((raw_end + (U32 - m.consumer_0_offset % U32)) % U32) / (m.max_consumers % U8)

/-- `consumer_offset` from layout.hpp:
`consumer_0_offset + n * consumer_section_size(meta)` on `uint32_t`. -/
def consumer_offset (m : Metadata) (n : Nat) : Nat :=
  ((m.consumer_0_offset % U32) + ((n % U8) * consumer_section_size m) % U32) % U32

/-- `data_segment_size` from layout.hpp: `buffer_size` when
`hugepage_size = 0`, otherwise
`((buffer_size + hugepage_size - 1) / hugepage_size) * hugepage_size`
on `uint32_t` with wrapping additions. -/
def data_segment_size (buffer_size hugepage_size : Nat) : Nat :=
  let bs := buffer_size % U32
  let hp := hugepage_size % U32
  if hp = 0 then bs
  else ((((bs + hp) % U32 + (U32 - 1)) % U32) / hp * hp) % U32

/-- System calls issued by the release operations of the platform policy
(platform.hpp, LinuxShmPolicy). The embedding of a release operation is
the list of system calls it performs. -/
inductive Syscall where
  | munmap (addr size : Nat)
  | close (fd : Int)
deriving DecidableEq

/-- `MAP_FAILED` is `(void*)-1`, i.e. all-ones as a 64-bit address. -/
def MAP_FAILED : Nat := U64 - 1

/-- `LinuxShmPolicy::unmap` from platform.hpp:
`if (ptr && ptr != MAP_FAILED) ::munmap(ptr, size);`.
Addresses are 64-bit; a null or MAP_FAILED pointer issues no call. -/
def unmap (ptr size : Nat) : List Syscall :=
  if ptr % U64 ≠ 0 ∧ ptr % U64 ≠ MAP_FAILED then
    [Syscall.munmap (ptr % U64) (size % U64)]
  else []

/-- `LinuxShmPolicy::close_fd` from platform.hpp:
`if (fd >= 0) ::close(fd);`. The descriptor is a signed C int. -/
def close_fd (fd : Int) : List Syscall :=
  if 0 ≤ fd then [Syscall.close fd] else []

/-- A concrete metadata record (buffer of 8 slots, mask 7) used to
instantiate metadata theorems on a closed input. -/
def sampleMeta : Metadata :=
  { magic := 0
    version := 0
    max_consumers := 0
    event_size := 0
    producer_pid := 0
    buffer_size := 8
    producer_offset := 0
    consumer_0_offset := 0
    header_size := 0
    index_mask := 7
    event_size_log2 := 0
    buffer_size_log2 := 0
    header_size_log2 := 0
    padding := [] }

/-!  Helper lemmas about the geometry primitives.  -/

theorem size_to_log2_loop_some (size : Nat) :
    ∀ fuel e, (∀ d, d < e → 2 ^ d < size) → (∃ d, d < e + fuel ∧ size ≤ 2 ^ d) →
    ∃ r, size_to_log2_loop size e fuel = some r ∧ size ≤ 2 ^ r ∧
      ∀ d, d < r → 2 ^ d < size := by
  intro fuel
  induction fuel with
  | zero =>
    rintro e hinv ⟨d, hd, hle⟩
    exact absurd hle (Nat.not_le.mpr (hinv d (by omega)))
  | succ f ih =>
    intro e hinv hex
    have hsh : (1 : Nat) <<< e = 2 ^ e := by
      simp [Nat.shiftLeft_eq]
    by_cases h : 2 ^ e < size
    · have hstep : size_to_log2_loop size e (f + 1) =
          size_to_log2_loop size (e + 1) f := by
        simp [size_to_log2_loop, hsh, h]
      rw [hstep]
      refine ih (e + 1) ?_ ?_
      · intro d hd
        rcases Nat.lt_or_ge d e with hde | hde
        · exact hinv d hde
        · have : d = e := by omega
          simpa [this] using h
      · obtain ⟨d, hd, hle⟩ := hex
        exact ⟨d, by omega, hle⟩
    · have hstep : size_to_log2_loop size e (f + 1) = some e := by
        simp [size_to_log2_loop, hsh, h]
      exact ⟨e, hstep, Nat.le_of_not_lt h, hinv⟩

theorem size_to_log2_loop_none (size : Nat) :
    ∀ fuel e, (∀ d, d < e + fuel → 2 ^ d < size) →
    size_to_log2_loop size e fuel = none := by
  intro fuel
  induction fuel with
  | zero => intro e _; rfl
  | succ f ih =>
    intro e hinv
    have hsh : (1 : Nat) <<< e = 2 ^ e := by
      simp [Nat.shiftLeft_eq]
    have h : 2 ^ e < size := hinv e (by omega)
    have hstep : size_to_log2_loop size e (f + 1) =
        size_to_log2_loop size (e + 1) f := by
      simp [size_to_log2_loop, hsh, h]
    rw [hstep]
    exact ih (e + 1) fun d hd => hinv d (by omega)

/-- On inputs up to `2^31` the `size_to_log2` loop terminates and returns
the least exponent `r` with `2 ^ r ≥ size` (which is at most 31). -/
theorem size_to_log2_le (x : Nat) (hx : x ≤ 2 ^ 31) :
    ∃ r, size_to_log2 x = some r ∧ x ≤ 2 ^ r ∧ r ≤ 31 ∧
      ∀ d, x ≤ 2 ^ d → r ≤ d := by
  have hxU : x % U32 = x := Nat.mod_eq_of_lt (by simp only [U32_eq]; omega)
  obtain ⟨r, hr, hle, hlt⟩ := size_to_log2_loop_some x 32 0
    (by omega) ⟨31, by omega, hx⟩
  refine ⟨r, ?_, hle, ?_, ?_⟩
  · simp only [size_to_log2, hxU]; exact hr
  · by_contra hgt
    exact absurd hx (Nat.not_le.mpr (by
      have := hlt 31 (by omega)
      omega))
  · intro d hd
    by_contra hlt2
    exact absurd hd (Nat.not_le.mpr (hlt d (by omega)))

/-- On an exact power of two (exponent at most 31) `size_to_log2`
returns the exponent. -/
theorem size_to_log2_pow (k : Nat) (hk : k ≤ 31) :
    size_to_log2 (2 ^ k) = some k := by
  obtain ⟨r, hr, hle, _, hleast⟩ := size_to_log2_le (2 ^ k)
    (Nat.pow_le_pow_right (by omega) hk)
  have h1 : k ≤ r := (Nat.pow_le_pow_iff_right (by omega)).mp hle
  have h2 : r ≤ k := hleast k (Nat.le_refl _)
  rw [hr, Nat.le_antisymm h1 h2]

/-- Above `2^31` the C loop never exits before the undefined shift by 32:
the embedding returns `none`. -/
theorem size_to_log2_none (x : Nat) (h1 : 2 ^ 31 < x) (h2 : x < U32) :
    size_to_log2 x = none := by
  have hxU : x % U32 = x := Nat.mod_eq_of_lt h2
  have := size_to_log2_loop_none x 32 0 (fun d hd => by
    have : (2 : Nat) ^ d ≤ 2 ^ 31 := Nat.pow_le_pow_right (by omega) (by omega)
    omega)
  simpa [size_to_log2, hxU] using this

/-- Rounding up to a multiple of `b` does not go below the original. -/
theorem roundup_ge (a b : Nat) (hb : 0 < b) : a ≤ (a + b - 1) / b * b := by
  have h2 := Nat.div_add_mod (a + b - 1) b
  have h3 : (a + b - 1) % b < b := Nat.mod_lt _ hb
  rw [Nat.mul_comm]
  omega

/-- The power-of-two bit trick of `is_power_of_2`: for positive `x`,
`x & (x - 1)` is zero exactly when `x` is a power of two. -/
theorem and_pred_eq_zero_iff :
    ∀ x : Nat, 1 ≤ x → ((x &&& (x - 1)) = 0 ↔ ∃ k, x = 2 ^ k) := by
  intro x
  induction x using Nat.strong_induction_on with
  | _ x ih =>
    intro hx
    rcases Nat.even_or_odd x with he | ho
    · obtain ⟨m, hm⟩ := he
      have hxm : x = 2 * m := by omega
      have hm1 : 1 ≤ m := by omega
      have e1 : x = Nat.bit false m := by
        simp [Nat.bit, hxm]
      have e2 : x - 1 = Nat.bit true (m - 1) := by
        simp only [Nat.bit, cond_true]
        omega
      have key : x &&& (x - 1) = 2 * (m &&& (m - 1)) := by
        rw [e2, e1, Nat.land_bit]
        simp [Nat.bit]
      have ihm := ih m (by omega) hm1
      constructor
      · intro h
        obtain ⟨k, hk⟩ := ihm.mp (by omega)
        exact ⟨k + 1, by rw [Nat.pow_succ]; omega⟩
      · rintro ⟨k, hk⟩
        have hk1 : 1 ≤ k := by
          rcases Nat.eq_zero_or_pos k with h0 | h1
          · subst h0; simp at hk; omega
          · exact h1
        have hmk : m = 2 ^ (k - 1) := by
          have : 2 ^ k = 2 ^ (k - 1) * 2 := by
            rw [← Nat.pow_succ]
            congr 1
            omega
          omega
        have := ihm.mpr ⟨k - 1, hmk⟩
        omega
    · obtain ⟨m, hm⟩ := ho
      rcases Nat.eq_zero_or_pos m with hm0 | hm1
      · subst hm0
        constructor
        · intro _; exact ⟨0, by omega⟩
        · intro _; simp [hm]
      · have e1 : x = Nat.bit true m := by
          simp [Nat.bit, hm]
        have e2 : x - 1 = Nat.bit false m := by
          simp only [Nat.bit, cond_false]
          omega
        have key : x &&& (x - 1) = 2 * m := by
          rw [e2, e1, Nat.land_bit]
          simp [Nat.bit]
        constructor
        · intro h; omega
        · rintro ⟨k, hk⟩
          rcases Nat.eq_zero_or_pos k with hk0 | hk1
          · subst hk0; omega
          · exfalso
            have h2 : 2 ∣ x := hk ▸ dvd_pow_self 2 (by omega)
            obtain ⟨c, hc⟩ := h2
            omega

/-- When the three embedded `size_to_log2` calls succeed, `metadata_init`
returns exactly the record its C body writes. -/
theorem metadata_init_eq (mc es bs po co hs esl bsl hsl : Nat)
    (hes : es < U16) (hbs : bs < U32) (hhs : hs < U32)
    (hesl : (if es = 0 then some 0 else size_to_log2 es) = some esl)
    (hbsl : size_to_log2 bs = some bsl)
    (hhsl : size_to_log2 hs = some hsl) :
    metadata_init mc es bs po co hs = some {
      magic := METADATA_MAGIC
      version := METADATA_VERSION
      max_consumers := mc % U8
      event_size := es
      producer_pid := 0
      buffer_size := bs
      producer_offset := po % U32
      consumer_0_offset := co % U32
      header_size := hs
      index_mask := (bs + (U32 - 1)) % U32
      event_size_log2 := esl
      buffer_size_log2 := bsl
      header_size_log2 := hsl
      padding := List.replicate (CACHE_LINE - METADATA_FIXED_SIZE) 0 } := by
  simp only [metadata_init, Nat.mod_eq_of_lt hes, Nat.mod_eq_of_lt hbs,
    Nat.mod_eq_of_lt hhs, hesl, hbsl, hhsl, Option.some_bind]

/-- Exponents of two are determined by their powers. -/
theorem two_pow_inj {b b' : Nat} (h : (2 : Nat) ^ b = 2 ^ b') : b = b' :=
  Nat.le_antisymm ((Nat.pow_le_pow_iff_right (by omega)).mp h.le)
    ((Nat.pow_le_pow_iff_right (by omega)).mp h.ge)

/-- The `event_size ? size_to_log2(event_size) : 0` expression of
`metadata_init` always succeeds on a `uint16_t` event size, yielding 0
for 0 and the exact exponent on a power of two. -/
theorem event_size_log2_some (es : Nat) (hes : es < U16) :
    ∃ esl, (if es = 0 then some 0 else size_to_log2 es) = some esl ∧
      esl ≤ 31 ∧ (es = 0 → esl = 0) ∧ ∀ j, es = 2 ^ j → esl = j := by
  by_cases h0 : es = 0
  · refine ⟨0, by simp [h0], by omega, fun _ => rfl, ?_⟩
    intro j hj
    exfalso
    have := Nat.two_pow_pos j
    omega
  · obtain ⟨r, hr, hle, hr31, hleast⟩ := size_to_log2_le es (by
      have h16 : U16 ≤ 2 ^ 31 := by decide
      omega)
    refine ⟨r, by simp [h0, hr], hr31, fun h => absurd h h0, ?_⟩
    intro j hj
    have hj15 : j ≤ 15 := by
      by_contra hgt
      have h2 : U16 ≤ 2 ^ j := by
        have : (2 : Nat) ^ 16 ≤ 2 ^ j := Nat.pow_le_pow_right (by omega) (by omega)
        simpa [U16_eq] using this
      omega
    have hpow := size_to_log2_pow j (by omega)
    rw [hj, hpow] at hr
    exact (Option.some.inj hr).symm

/-- With the default layout (`consumer_0_offset = 192`) the derived
per-consumer section size is the default 128 bytes. -/
theorem consumer_section_size_default (m : Metadata)
    (h1 : 1 ≤ m.max_consumers) (h2 : m.max_consumers ≤ 255)
    (h3 : m.consumer_0_offset % U32 = 192) :
    consumer_section_size m = 128 := by
  show (raw_header_size m.max_consumers DEFAULT_PRODUCER_SECTION_SIZE
    DEFAULT_CONSUMER_SECTION_SIZE + (U32 - m.consumer_0_offset % U32)) % U32
    / (m.max_consumers % U8) = 128
  rw [h3]
  have hmc : m.max_consumers % U8 = m.max_consumers := by
    simp only [U8_eq]
    omega
  rw [hmc]
  have hraw : raw_header_size m.max_consumers DEFAULT_PRODUCER_SECTION_SIZE
      DEFAULT_CONSUMER_SECTION_SIZE = 192 + 128 * m.max_consumers := by
    simp only [raw_header_size, DEFAULT_PRODUCER_SECTION_SIZE,
      DEFAULT_CONSUMER_SECTION_SIZE, CACHE_LINE, U8_eq, U32_eq]
    omega
  rw [hraw]
  have hmod : (192 + 128 * m.max_consumers + (U32 - 192)) % U32
      = 128 * m.max_consumers := by
    simp only [U32_eq]
    omega
  rw [hmod]
  exact Nat.mul_div_cancel 128 (by omega)

/-!  Claim theorems.  -/

/-- Claim C6: for every 32-bit `x`, `is_power_of_2 x` is true iff
`x = 2^k` for some `k`, and `size_to_log2 (2^k) = k` for `k ≤ 31`. -/
theorem pow2_helpers_correct :
    (∀ x : Nat, x < U32 → (is_power_of_2 x = true ↔ ∃ k, x = 2 ^ k)) ∧
    (∀ k : Nat, k ≤ 31 → size_to_log2 (2 ^ k) = some k) := by
  constructor
  · intro x hx
    have hxU : x % U32 = x := Nat.mod_eq_of_lt hx
    simp only [is_power_of_2, hxU, Bool.and_eq_true, bne_iff_ne, ne_eq,
      beq_iff_eq]
    constructor
    · rintro ⟨h1, h2⟩
      exact (and_pred_eq_zero_iff x (by omega)).mp h2
    · rintro ⟨k, hk⟩
      have hx1 : 1 ≤ x := hk ▸ Nat.two_pow_pos k
      exact ⟨by omega, (and_pred_eq_zero_iff x hx1).mpr ⟨k, hk⟩⟩
  · exact fun k hk => size_to_log2_pow k hk

/-- Witness for C6 at `x = 64` and `k = 10`. -/
theorem pow2_helpers_correct_witness :
    (is_power_of_2 64 = true ↔ ∃ k, (64 : Nat) = 2 ^ k) ∧
    size_to_log2 1024 = some 10 :=
  ⟨pow2_helpers_correct.1 64 (by decide),
   pow2_helpers_correct.2 10 (by decide)⟩

/-- Claim C10: for `1 ≤ x ≤ 2^31` the `size_to_log2` loop terminates with
the least `r` such that `2^r ≥ x`; `size_to_log2 0 = 0`; for `x > 2^31`
no exponent below 32 satisfies the exit condition `¬(1 << e < x)`, so the
loop reaches the undefined shift by 32 (modelled as `none`). -/
theorem size_to_log2_termination :
    (∀ x : Nat, 1 ≤ x → x ≤ 2 ^ 31 →
      ∃ r, size_to_log2 x = some r ∧ x ≤ 2 ^ r ∧ ∀ d, x ≤ 2 ^ d → r ≤ d) ∧
    size_to_log2 0 = some 0 ∧
    (∀ x : Nat, 2 ^ 31 < x → x < U32 →
      (∀ e, e < 32 → 1 <<< e < x) ∧ size_to_log2 x = none) := by
  refine ⟨?_, by decide, ?_⟩
  · intro x _ hx
    obtain ⟨r, hr, hle, _, hleast⟩ := size_to_log2_le x hx
    exact ⟨r, hr, hle, hleast⟩
  · intro x h1 h2
    refine ⟨?_, size_to_log2_none x h1 h2⟩
    intro e he
    have hsh : (1 : Nat) <<< e = 2 ^ e := by simp [Nat.shiftLeft_eq]
    have hb : (2 : Nat) ^ e ≤ 2 ^ 31 := Nat.pow_le_pow_right (by omega) (by omega)
    omega

/-- Witness for C10 at `x = 5` (terminates, least exponent) and
`x = 2^32 - 1` (loop never exits). -/
theorem size_to_log2_termination_witness :
    (∃ r, size_to_log2 5 = some r ∧ 5 ≤ 2 ^ r ∧ ∀ d, 5 ≤ 2 ^ d → r ≤ d) ∧
    size_to_log2 4294967295 = none :=
  ⟨size_to_log2_termination.1 5 (by decide) (by decide),
   (size_to_log2_termination.2.2 4294967295 (by decide) (by decide)).2⟩

/-- Claim C9: the release operations are no-ops on invalid handles: a
null address issues no `munmap` call and a negative descriptor issues
no `close` call. -/
theorem release_noop_on_invalid :
    (∀ size : Nat, unmap 0 size = []) ∧
    (∀ fd : Int, fd < 0 → close_fd fd = []) := by
  constructor
  · intro size
    simp [unmap]
  · intro fd hfd
    simp only [close_fd]
    rw [if_neg (by omega)]

/-- Witness for C9 at `size = 4096` and `fd = -1`. -/
theorem release_noop_on_invalid_witness :
    unmap 0 4096 = [] ∧ close_fd (-1) = [] :=
  ⟨release_noop_on_invalid.1 4096,
   release_noop_on_invalid.2 (-1) (by decide)⟩

/-- Claim C5: for any record whose `buffer_size` is a 32-bit power of two
and whose `index_mask` is `buffer_size - 1`, `buffer_index` stays below
`buffer_size` and is periodic with period `buffer_size` in the 64-bit
sequence number. -/
theorem buffer_index_bounds_and_period :
    ∀ (m : Metadata) (b : Nat), b ≤ 31 → m.buffer_size = 2 ^ b →
    m.index_mask = m.buffer_size - 1 →
    ∀ seq : Nat, seq < U64 →
      buffer_index m seq < m.buffer_size ∧
      buffer_index m seq = buffer_index m (seq + m.buffer_size) := by
  intro m b hb hbs hmask seq _
  have hmU : m.index_mask % U32 = 2 ^ b - 1 := by
    rw [hmask, hbs]
    apply Nat.mod_eq_of_lt
    have h31 : (2 : Nat) ^ b ≤ 2 ^ 31 := Nat.pow_le_pow_right (by omega) hb
    have h32 : (2 : Nat) ^ 31 < U32 := by decide
    omega
  have d1 : (2 : Nat) ^ b ∣ U32 := Nat.pow_dvd_pow 2 (by omega)
  have d2 : (2 : Nat) ^ b ∣ U64 := Nat.pow_dvd_pow 2 (by omega)
  have key : ∀ s : Nat, buffer_index m s = s % 2 ^ b := by
    intro s
    rw [buffer_index, hmU, Nat.and_pow_two_sub_one_eq_mod,
      Nat.mod_mod_of_dvd _ d1, Nat.mod_mod_of_dvd _ d2]
  refine ⟨?_, ?_⟩
  · rw [key, hbs]
    exact Nat.mod_lt _ (Nat.two_pow_pos b)
  · rw [key, key, hbs, Nat.add_mod_right]

/-- Witness for C5 on a concrete record with `buffer_size = 8`,
`index_mask = 7`, at sequence number 13. -/
theorem buffer_index_bounds_and_period_witness :
    buffer_index sampleMeta 13 < sampleMeta.buffer_size ∧
    buffer_index sampleMeta 13 = buffer_index sampleMeta
      (13 + sampleMeta.buffer_size) :=
  buffer_index_bounds_and_period sampleMeta 3 (by decide) rfl rfl 13 (by decide)

/-- Claim C3 counterexample: at `buffer_size = 3` (not a power of two)
`metadata_init` does not fail: it returns a record, silently writing
`index_mask = 2`. -/
theorem metadata_init_accepts_non_pow2 :
    is_power_of_2 3 = false ∧
    (metadata_init 1 0 3 64 192 4096).isSome = true ∧
    (metadata_init 1 0 3 64 192 4096).map Metadata.index_mask = some 2 := by
  decide

/-- Claim C3 (amended): `metadata_init` performs no validation of its
size arguments: for every `event_size` in `uint16_t` range and every
`buffer_size` and `header_size` up to `2^31` — powers of two or not —
it returns normally, writing `buffer_size` and the wrapped
`buffer_size - 1` into the record. -/
theorem metadata_init_no_validation :
    ∀ mc es bs po co hs : Nat, es < U16 → bs ≤ 2 ^ 31 → hs ≤ 2 ^ 31 →
    ∃ m, metadata_init mc es bs po co hs = some m ∧
      m.buffer_size = bs ∧ m.index_mask = (bs + (U32 - 1)) % U32 := by
  intro mc es bs po co hs hes hbs hhs
  have h32 : (2 : Nat) ^ 31 < U32 := by decide
  obtain ⟨rb, hrb, -, -, -⟩ := size_to_log2_le bs hbs
  obtain ⟨rh, hrh, -, -, -⟩ := size_to_log2_le hs hhs
  have hesl : (if es = 0 then some 0 else size_to_log2 es) = some
      (if es = 0 then 0 else (size_to_log2 es).getD 0) := by
    by_cases h0 : es = 0
    · simp [h0]
    · obtain ⟨re, hre, -, -, -⟩ := size_to_log2_le es (by
        have : U16 ≤ 2 ^ 31 := by decide
        omega)
      simp [h0, hre]
  rw [metadata_init_eq mc es bs po co hs _ rb rh hes (by omega) (by omega)
    hesl hrb hrh]
  exact ⟨_, rfl, rfl, rfl⟩

/-- Witness for C3's amended theorem at the non-power-of-two
`buffer_size = 3`. -/
theorem metadata_init_no_validation_witness :
    ∃ m, metadata_init 7 0 3 64 192 4096 = some m ∧
      m.buffer_size = 3 ∧ m.index_mask = (3 + (U32 - 1)) % U32 :=
  metadata_init_no_validation 7 0 3 64 192 4096 (by decide) (by decide)
    (by decide)

/-- Claim C1: for any `max_consumers`, power-of-two `buffer_size`, zero
or power-of-two `event_size` (and power-of-two `header_size`, which the
claim's `log2(header_size)` presupposes), `metadata_init` succeeds,
`metadata_validate` accepts the record, and every derived field has the
claimed value: `index_mask = buffer_size - 1`, the log2 fields carry the
exact exponents (0 for `event_size = 0`), `producer_pid = 0` and all
padding bytes are 0. -/
theorem metadata_init_validate_roundtrip :
    ∀ mc es bs po co hs : Nat,
    (es = 0 ∨ ∃ j, j ≤ 15 ∧ es = 2 ^ j) →
    (∃ b, b ≤ 31 ∧ bs = 2 ^ b) →
    (∃ k, k ≤ 31 ∧ hs = 2 ^ k) →
    ∃ m, metadata_init mc es bs po co hs = some m ∧
      metadata_validate m = true ∧
      m.index_mask = bs - 1 ∧
      (∀ b, bs = 2 ^ b → m.buffer_size_log2 = b) ∧
      (∀ k, hs = 2 ^ k → m.header_size_log2 = k) ∧
      (es = 0 → m.event_size_log2 = 0) ∧
      (∀ j, es = 2 ^ j → m.event_size_log2 = j) ∧
      m.producer_pid = 0 ∧
      (∀ p ∈ m.padding, p = 0) := by
  rintro mc es bs po co hs hes ⟨b, hb, rfl⟩ ⟨k, hk, rfl⟩
  have h31 : (2 : Nat) ^ 31 < U32 := by decide
  have hbU : (2 : Nat) ^ b < U32 :=
    lt_of_le_of_lt (Nat.pow_le_pow_right (by omega) hb) h31
  have hkU : (2 : Nat) ^ k < U32 :=
    lt_of_le_of_lt (Nat.pow_le_pow_right (by omega) hk) h31
  have hesU : es < U16 := by
    rcases hes with h0 | ⟨j, hj, rfl⟩
    · simp [h0, U16_eq]
    · exact lt_of_le_of_lt (Nat.pow_le_pow_right (by omega) hj) (by decide)
  obtain ⟨esl, hesl, -, hesl0, heslj⟩ := event_size_log2_some es hesU
  rw [metadata_init_eq mc es _ po co _ esl b k hesU hbU hkU hesl
    (size_to_log2_pow b hb) (size_to_log2_pow k hk)]
  refine ⟨_, rfl, by simp [metadata_validate], ?_, ?_, ?_, ?_, ?_, rfl, ?_⟩
  · show (2 ^ b + (U32 - 1)) % U32 = 2 ^ b - 1
    have h1 := Nat.two_pow_pos b
    simp only [U32_eq] at hbU ⊢
    omega
  · intro b' hb'
    show b = b'
    exact two_pow_inj hb'
  · intro k' hk'
    show k = k'
    exact two_pow_inj hk'
  · intro h0
    show esl = 0
    exact hesl0 h0
  · intro j hj
    show esl = j
    exact heslj j hj
  · intro p hp
    exact List.eq_of_mem_replicate hp

/-- Witness for C1 at `max_consumers = 4`, `event_size = 64`,
`buffer_size = 1024`, `header_size = 4096`. -/
theorem metadata_init_validate_roundtrip_witness :
    ∃ m, metadata_init 4 64 1024 64 192 4096 = some m ∧
      metadata_validate m = true ∧
      m.index_mask = 1024 - 1 ∧
      (∀ b, (1024 : Nat) = 2 ^ b → m.buffer_size_log2 = b) ∧
      (∀ k, (4096 : Nat) = 2 ^ k → m.header_size_log2 = k) ∧
      ((64 : Nat) = 0 → m.event_size_log2 = 0) ∧
      (∀ j, (64 : Nat) = 2 ^ j → m.event_size_log2 = j) ∧
      m.producer_pid = 0 ∧
      (∀ p ∈ m.padding, p = 0) :=
  metadata_init_validate_roundtrip 4 64 1024 64 192 4096
    (Or.inr ⟨6, by decide, by decide⟩) ⟨10, by decide, by decide⟩
    ⟨12, by decide, by decide⟩

set_option maxRecDepth 4096 in
/-- Claim C2: a record produced by `metadata_init` with the default
layout (`producer_offset = default_producer_offset`,
`consumer_0_offset = default_consumer_0_offset`,
`header_size = header_segment_size max_consumers`) satisfies the valid
metadata invariants: matching magic and version,
`index_mask = buffer_size - 1`, `consumer_0_offset > producer_offset > 0`,
page-aligned `header_size` at least
`consumer_0_offset + max_consumers * consumer_section_size`. -/
theorem metadata_init_default_layout_invariants :
    ∀ mc es b : Nat, 1 ≤ mc → mc ≤ 255 → es < U16 → b ≤ 31 →
    ∃ m, metadata_init mc es (2 ^ b) default_producer_offset
        (default_consumer_0_offset DEFAULT_PRODUCER_SECTION_SIZE)
        (header_segment_size mc DEFAULT_PRODUCER_SECTION_SIZE
          DEFAULT_CONSUMER_SECTION_SIZE) = some m ∧
      m.magic = METADATA_MAGIC ∧
      m.version = METADATA_VERSION ∧
      m.index_mask = 2 ^ b - 1 ∧
      0 < m.producer_offset ∧
      m.producer_offset < m.consumer_0_offset ∧
      m.header_size % PAGE_SIZE = 0 ∧
      m.consumer_0_offset + mc * consumer_section_size m ≤ m.header_size := by
  intro mc es b hmc1 hmc255 hes hb
  have h31 : (2 : Nat) ^ 31 < U32 := by decide
  have hbU : (2 : Nat) ^ b < U32 :=
    lt_of_le_of_lt (Nat.pow_le_pow_right (by omega) hb) h31
  have hraw : raw_header_size mc DEFAULT_PRODUCER_SECTION_SIZE
      DEFAULT_CONSUMER_SECTION_SIZE = 192 + 128 * mc := by
    simp only [raw_header_size, DEFAULT_PRODUCER_SECTION_SIZE,
      DEFAULT_CONSUMER_SECTION_SIZE, CACHE_LINE, U8_eq, U32_eq]
    omega
  have hhs : header_segment_size mc DEFAULT_PRODUCER_SECTION_SIZE
        DEFAULT_CONSUMER_SECTION_SIZE % 4096 = 0 ∧
      192 + 128 * mc ≤ header_segment_size mc DEFAULT_PRODUCER_SECTION_SIZE
        DEFAULT_CONSUMER_SECTION_SIZE ∧
      header_segment_size mc DEFAULT_PRODUCER_SECTION_SIZE
        DEFAULT_CONSUMER_SECTION_SIZE ≤ 36864 := by
    simp only [header_segment_size, hraw, PAGE_SIZE, U32_eq]
    omega
  obtain ⟨esl, hesl, -, -, -⟩ := event_size_log2_some es hes
  have hhs31 : header_segment_size mc DEFAULT_PRODUCER_SECTION_SIZE
      DEFAULT_CONSUMER_SECTION_SIZE ≤ 2 ^ 31 := by
    have h36 : (36864 : Nat) ≤ 2 ^ 31 := by decide
    omega
  have hhsU : header_segment_size mc DEFAULT_PRODUCER_SECTION_SIZE
      DEFAULT_CONSUMER_SECTION_SIZE < U32 := by
    have h36 : (36864 : Nat) < U32 := by decide
    omega
  obtain ⟨rh, hrh, -, -, -⟩ := size_to_log2_le (header_segment_size mc
    DEFAULT_PRODUCER_SECTION_SIZE DEFAULT_CONSUMER_SECTION_SIZE) hhs31
  rw [metadata_init_eq mc es (2 ^ b) default_producer_offset
    (default_consumer_0_offset DEFAULT_PRODUCER_SECTION_SIZE)
    (header_segment_size mc DEFAULT_PRODUCER_SECTION_SIZE
      DEFAULT_CONSUMER_SECTION_SIZE) esl b rh hes hbU hhsU hesl
    (size_to_log2_pow b hb) hrh]
  refine ⟨_, rfl, rfl, rfl, ?_, ?_, ?_, hhs.1, ?_⟩
  · show (2 ^ b + (U32 - 1)) % U32 = 2 ^ b - 1
    have h1 := Nat.two_pow_pos b
    simp only [U32_eq] at hbU ⊢
    omega
  · show 0 < default_producer_offset % U32
    decide
  · show default_producer_offset % U32 <
      default_consumer_0_offset DEFAULT_PRODUCER_SECTION_SIZE % U32
    decide
  · rw [consumer_section_size_default _
      (by show 1 ≤ mc % U8; simp only [U8_eq]; omega)
      (by show mc % U8 ≤ 255; simp only [U8_eq]; omega)
      (by show (default_consumer_0_offset DEFAULT_PRODUCER_SECTION_SIZE % U32)
            % U32 = 192
          decide)]
    show default_consumer_0_offset DEFAULT_PRODUCER_SECTION_SIZE % U32 +
      mc * 128 ≤ header_segment_size mc DEFAULT_PRODUCER_SECTION_SIZE
        DEFAULT_CONSUMER_SECTION_SIZE
    have hco : default_consumer_0_offset DEFAULT_PRODUCER_SECTION_SIZE % U32
        = 192 := by decide
    rw [hco]
    omega

/-- Witness for C2 at `max_consumers = 4`, `event_size = 64`,
`buffer_size = 2^10`. -/
theorem metadata_init_default_layout_invariants_witness :
    ∃ m, metadata_init 4 64 (2 ^ 10) default_producer_offset
        (default_consumer_0_offset DEFAULT_PRODUCER_SECTION_SIZE)
        (header_segment_size 4 DEFAULT_PRODUCER_SECTION_SIZE
          DEFAULT_CONSUMER_SECTION_SIZE) = some m ∧
      m.magic = METADATA_MAGIC ∧
      m.version = METADATA_VERSION ∧
      m.index_mask = 2 ^ 10 - 1 ∧
      0 < m.producer_offset ∧
      m.producer_offset < m.consumer_0_offset ∧
      m.header_size % PAGE_SIZE = 0 ∧
      m.consumer_0_offset + 4 * consumer_section_size m ≤ m.header_size :=
  metadata_init_default_layout_invariants 4 64 10 (by decide) (by decide)
    (by decide) (by decide)

/-- Claim C4 counterexample: for a record written with `event_size = 0`
the code computes `index << 0 = index`, not the claimed exact product
`index * event_size = 0`: at `index = 1` the offset is 1, not 0. -/
theorem event_offset_counterexample :
    (metadata_init 1 0 4 64 192 4096).map Metadata.event_size = some 0 ∧
    (metadata_init 1 0 4 64 192 4096).map (fun m => event_offset m 1) =
      some 1 ∧
    (1 : Nat) * 0 ≠ 1 := by
  decide

/-- Claim C4 (amended): for a record written by `metadata_init` with a
nonzero power-of-two `event_size`, `event_offset` equals
`index * event_size` reduced modulo `2^32` — hence the exact product
exactly when that product fits in 32 bits — and for `event_size = 0` it
equals `index` itself (a shift by zero), not the product 0. -/
theorem event_offset_spec :
    (∀ mc po co hs j b : Nat, j ≤ 15 → b ≤ 31 → hs ≤ 2 ^ 31 →
      ∀ m, metadata_init mc (2 ^ j) (2 ^ b) po co hs = some m →
      ∀ index, index < 2 ^ b →
        event_offset m index = (index * 2 ^ j) % U32 ∧
        (index * 2 ^ j < U32 → event_offset m index = index * 2 ^ j)) ∧
    (∀ mc po co hs b : Nat, b ≤ 31 → hs ≤ 2 ^ 31 →
      ∀ m, metadata_init mc 0 (2 ^ b) po co hs = some m →
      ∀ index, index < 2 ^ b →
        event_offset m index = index) := by
  have h31 : (2 : Nat) ^ 31 < U32 := by decide
  constructor
  · intro mc po co hs j b hj hb hhs m hm index hidx
    have hbU : (2 : Nat) ^ b < U32 :=
      lt_of_le_of_lt (Nat.pow_le_pow_right (by omega) hb) h31
    have hjU : (2 : Nat) ^ j < U16 :=
      lt_of_le_of_lt (Nat.pow_le_pow_right (by omega) hj) (by decide)
    have hhsU : hs < U32 := by omega
    obtain ⟨rh, hrh, -, -, -⟩ := size_to_log2_le hs hhs
    have hne : (2 : Nat) ^ j ≠ 0 := by
      have := Nat.two_pow_pos j
      omega
    have hesl : (if (2 : Nat) ^ j = 0 then some 0 else size_to_log2 (2 ^ j))
        = some j := by
      simp [hne, size_to_log2_pow j (by omega)]
    rw [metadata_init_eq mc (2 ^ j) (2 ^ b) po co hs j b rh hjU hbU hhsU
      hesl (size_to_log2_pow b hb) hrh] at hm
    injection hm with hm
    subst hm
    have hidxU : index % U32 = index := Nat.mod_eq_of_lt (by omega)
    have hjU8 : j % U8 = j := Nat.mod_eq_of_lt (by
      have : (15 : Nat) < U8 := by decide
      omega)
    have hval : event_offset
        { magic := METADATA_MAGIC
          version := METADATA_VERSION
          max_consumers := mc % U8
          event_size := 2 ^ j
          producer_pid := 0
          buffer_size := 2 ^ b
          producer_offset := po % U32
          consumer_0_offset := co % U32
          header_size := hs
          index_mask := (2 ^ b + (U32 - 1)) % U32
          event_size_log2 := j
          buffer_size_log2 := b
          header_size_log2 := rh
          padding := List.replicate (CACHE_LINE - METADATA_FIXED_SIZE) 0 }
        index = (index * 2 ^ j) % U32 := by
      show ((index % U32) <<< (j % U8)) % U32 = (index * 2 ^ j) % U32
      rw [hidxU, hjU8, Nat.shiftLeft_eq]
    refine ⟨hval, ?_⟩
    intro hfit
    rw [hval]
    exact Nat.mod_eq_of_lt hfit
  · intro mc po co hs b hb hhs m hm index hidx
    have hbU : (2 : Nat) ^ b < U32 :=
      lt_of_le_of_lt (Nat.pow_le_pow_right (by omega) hb) h31
    have hhsU : hs < U32 := by omega
    obtain ⟨rh, hrh, -, -, -⟩ := size_to_log2_le hs hhs
    rw [metadata_init_eq mc 0 (2 ^ b) po co hs 0 b rh (by decide) hbU hhsU
      (by simp) (size_to_log2_pow b hb) hrh] at hm
    injection hm with hm
    subst hm
    have hidxU : index % U32 = index := Nat.mod_eq_of_lt (by omega)
    show ((index % U32) <<< ((0 : Nat) % U8)) % U32 = index
    rw [hidxU]
    simpa using hidxU

/-- Witness for C4's amended theorem on the record written by
`metadata_init 1 64 1024 64 192 4096`, at `index = 3`. -/
theorem event_offset_spec_witness :
    event_offset
      { magic := METADATA_MAGIC
        version := METADATA_VERSION
        max_consumers := 1
        event_size := 64
        producer_pid := 0
        buffer_size := 1024
        producer_offset := 64
        consumer_0_offset := 192
        header_size := 4096
        index_mask := 1023
        event_size_log2 := 6
        buffer_size_log2 := 10
        header_size_log2 := 12
        padding := List.replicate 25 0 } 3 = 3 * 2 ^ 6 :=
  (event_offset_spec.1 1 64 192 4096 6 10 (by decide) (by decide) (by decide)
    _ (by decide) 3 (by decide)).2 (by decide)

/-- Claim C7 counterexample: with a producer section size near `2^32`
the page rounding in `header_segment_size` overflows `uint32_t` and the
result (0) is smaller than `raw_header_size`. -/
theorem header_segment_size_counterexample :
    header_segment_size 0 4294967231 0 < raw_header_size 0 4294967231 0 := by
  decide

/-- Claim C7 (amended): `header_segment_size` is always a multiple of the
page size, and it is at least `raw_header_size` whenever the page
rounding `raw + PAGE_SIZE - 1` does not overflow `uint32_t`; for section
sizes pushing `raw_header_size` above `2^32 - 4096` the rounding wraps
and the result can drop below `raw_header_size`. -/
theorem header_segment_size_aligned_ge :
    ∀ mc pss css : Nat,
      header_segment_size mc pss css % PAGE_SIZE = 0 ∧
      (raw_header_size mc pss css + (PAGE_SIZE - 1) < U32 →
        raw_header_size mc pss css ≤ header_segment_size mc pss css) := by
  intro mc pss css
  have hraw_lt : raw_header_size mc pss css < U32 := by
    show (CACHE_LINE + pss % U32 + ((mc % U8) * (css % U32)) % U32) % U32 < U32
    exact Nat.mod_lt _ (by decide)
  have hseg : header_segment_size mc pss css =
      (((raw_header_size mc pss css + PAGE_SIZE) % U32 + (U32 - 1)) % U32
        / PAGE_SIZE * PAGE_SIZE) % U32 := rfl
  rw [hseg]
  simp only [PAGE_SIZE, U32_eq] at hraw_lt ⊢
  omega

/-- Witness for C7's amended theorem at `max_consumers = 4` and the
default section sizes. -/
theorem header_segment_size_aligned_ge_witness :
    header_segment_size 4 128 128 % PAGE_SIZE = 0 ∧
    raw_header_size 4 128 128 ≤ header_segment_size 4 128 128 :=
  ⟨(header_segment_size_aligned_ge 4 128 128).1,
   (header_segment_size_aligned_ge 4 128 128).2 (by decide)⟩

/-- Claim C8 counterexample: with `buffer_size = 2^32 - 1` and the 2 MB
hugepage size, the rounding in `data_segment_size` overflows `uint32_t`
and returns 0, which is smaller than the buffer size. -/
theorem data_segment_size_counterexample :
    0 < 2097152 ∧ data_segment_size 4294967295 2097152 < 4294967295 := by
  decide

/-- Claim C8 (amended): `data_segment_size` returns `buffer_size`
unchanged for `hugepage_size = 0`; for positive `hugepage_size` it is a
multiple of the hugepage size and at least `buffer_size` whenever the
rounding `buffer_size + hugepage_size - 1` does not overflow `uint32_t`
(it wraps, and can drop below `buffer_size`, otherwise). -/
theorem data_segment_size_aligned_ge :
    ∀ bs hp : Nat, bs < U32 → hp < U32 →
      (hp = 0 → data_segment_size bs hp = bs) ∧
      (0 < hp → bs + hp - 1 < U32 →
        data_segment_size bs hp % hp = 0 ∧ bs ≤ data_segment_size bs hp) := by
  intro bs hp hbs hhp
  have hbsm : bs % U32 = bs := Nat.mod_eq_of_lt hbs
  constructor
  · intro h0
    subst h0
    simp [data_segment_size, hbsm]
  · intro hpos hno
    have hhpm : hp % U32 = hp := Nat.mod_eq_of_lt hhp
    have hne : ¬(hp = 0) := by omega
    have hd : data_segment_size bs hp =
        (((bs + hp) % U32 + (U32 - 1)) % U32 / hp * hp) % U32 := by
      simp only [data_segment_size, hhpm, hbsm, if_neg hne]
    have hin : ((bs + hp) % U32 + (U32 - 1)) % U32 = bs + hp - 1 := by
      simp only [U32_eq] at hbs hhp hno ⊢
      omega
    have hq : (bs + hp - 1) / hp * hp ≤ bs + hp - 1 := Nat.div_mul_le_self _ _
    have houter : ((bs + hp - 1) / hp * hp) % U32 = (bs + hp - 1) / hp * hp :=
      Nat.mod_eq_of_lt (by omega)
    rw [hd, hin, houter]
    exact ⟨Nat.mul_mod_left _ _, roundup_ge bs hp hpos⟩

/-- Witness for C8's amended theorem at `buffer_size = 2^31` and the
2 MB hugepage size. -/
theorem data_segment_size_aligned_ge_witness :
    data_segment_size 2147483648 2097152 % 2097152 = 0 ∧
    2147483648 ≤ data_segment_size 2147483648 2097152 :=
  (data_segment_size_aligned_ge 2147483648 2097152 (by decide)
    (by decide)).2 (by decide) (by decide)

end HftShm
